import Mathlib

/-!
Verification of the LatinSquareSolver core (src/LatinSquareSolver: node.c,
stack.c, algorithm.c, latinsolver.c) against its natural-language
specification.

The C code is shallowly embedded: the `Node` struct becomes a Lean
structure whose dynamically allocated `square` matrix and `moves` array
become lists of machine integers modelled as `Int`; the pointer-linked
stack becomes a `List Node` (top = head); the `while` loop of
`solveLatinSquare` becomes a fuel-indexed structural recursion
(`solveLoop`), one unit of fuel per evaluation of the loop condition, so
`solveLoop fuel st = some r` states that the C loop terminates within
`fuel` iterations with outcome `r`.
-/

namespace LatinSolver

/-- Read `square[i][j]`.  C reads outside the allocated matrix are
undefined behaviour; the embedding totalises them with default 0, and the
well-formedness invariants below show in-bounds indices are used. -/
def getCell (g : List (List Int)) (i j : Nat) : Int := (g.getD i []).getD j 0

/-- Store `square[i][j] = v` (no-op when out of range, see `getCell`). -/
def setCell (g : List (List Int)) (i j : Nat) (v : Int) : List (List Int) :=
  g.set i ((g.getD i []).set j v)

/-- The `Node` struct of node.h: the matrix `square`, its dimension
`size`, the cursor `row`/`col` of the last placed number, and the `moves`
candidate array (entry `v-1` is 1 while value `v` is still untried at the
current step).  The intrusive `next` pointer is represented by the list
structure of the stack itself. -/
structure Node where
  square : List (List Int)
  size : Nat
  row : Nat
  col : Nat
  moves : List Int
deriving DecidableEq, Repr

/-- `checkDuplicates` of algorithm.c: scan row `row` (excluding column
`col`) and column `col` (excluding row `row`) for a cell whose absolute
value equals `num`. -/
def checkDuplicates (node : Node) (num : Int) (row col : Nat) : Bool :=
  ((List.range node.size).any fun k =>
      decide (k ≠ col) && (|getCell node.square row k| == num)) ||
  ((List.range node.size).any fun k =>
      decide (k ≠ row) && (|getCell node.square k col| == num))

/-- Inner loop of `findNextEmptyCell`: scan columns `j0, j0+1, ..., size-1`
of row `i` and return the first one holding 0. -/
def findRowFrom (g : List (List Int)) (i j0 size : Nat) : Option Nat :=
  (List.range' j0 (size - j0)).find? fun j => getCell g i j == 0

/-- `findNextEmptyCell` of algorithm.c, success payload only: scan rows
`node.row, ..., size-1`; the first scanned row starts at column `node.col`
(`lastCol`), every later row restarts at column 0. -/
def findNextEmptyCellOpt (node : Node) : Option (Nat × Nat) :=
  (List.range' node.row (node.size - node.row)).findSome? fun i =>
    (findRowFrom node.square i (if i = node.row then node.col else 0) node.size).map
      fun j => (i, j)

/-- `findNextEmptyCell` with the C calling convention: the two out
parameters `*row`, `*col` and the returned exit code (`EXIT_SUCCESS = 0`
on a hit, `*row = *col = -1` and `EXIT_FAILURE = 1` otherwise). -/
def findNextEmptyCell (node : Node) : Int × Int × Nat :=
  match findNextEmptyCellOpt node with
  | some (i, j) => ((i : Int), (j : Int), 0)
  | none => (-1, -1, 1)

/-- `updateNode` of node.c: write `num` at `(row, col)`, move the cursor
there, and reset the whole `moves` array (of length `size`) to 1. -/
def updateNode (node : Node) (row col : Nat) (num : Int) : Node :=
  { node with
      square := setCell node.square row col num
      row := row
      col := col
      moves := List.replicate node.size 1 }

/-- `cloneNode` of node.c is a deep copy; on the value level it is the
identity, so `push` of stack.c (which clones its argument) is `cons`. -/
def push (stack : List Node) (newNode : Node) : List Node := newNode :: stack

/-- The element-by-element matrix copy performed by `pop` (and by
`cloneNode`): `size` freshly built rows of `size` entries each. -/
def copyMatrix (size : Nat) (sq : List (List Int)) : List (List Int) :=
  (List.range size).map fun i => (List.range size).map fun j => getCell sq i j

/-- The element-by-element copy of the `moves` array performed by `pop`. -/
def copyMoves (size : Nat) (m : List Int) : List Int :=
  (List.range size).map fun i => m.getD i 0

/-- The deep copy of the removed top that `pop` stores into `retNode`:
`row`, `col`, `size` copied directly, `square` and `moves` copied
element by element, `next` nulled. -/
def popCopy (temp : Node) : Node :=
  { square := copyMatrix temp.size temp.square
    size := temp.size
    row := temp.row
    col := temp.col
    moves := copyMoves temp.size temp.moves }

/-- `pop` of stack.c.  On an empty stack it fails (`EXIT_FAILURE`,
modelled as a `none` first component) and leaves the stack unchanged;
otherwise it unlinks the top, hands the caller the deep copy `popCopy`
of it, and returns the shrunk stack. -/
def pop (stack : List Node) : Option Node × List Node :=
  match stack with
  | [] => (none, stack)
  | temp :: rest => (some (popCopy temp), rest)

/-- The inner `for (i = 1; i <= size; i++)` of `solveLatinSquare`: find
the first candidate value whose `moves` flag is still 1 and which
`checkDuplicates` accepts, and commit it with `updateNode`; `none` when
the loop exhausts without a commit. -/
def tryPlace (node : Node) (row col : Nat) : Option Node :=
  ((List.range' 1 node.size).find? fun i =>
      (node.moves.getD (i - 1) 0 == 1) && !(checkDuplicates node (i : Int) row col)).map
    fun (i : Nat) => updateNode node row col (i : Int)

/-- The mutable locals of `solveLatinSquare`: the stack plus the three
counters `pushCounter`, `popCounter`, `stepCounter`. -/
structure SState where
  stack : List Node
  pushCounter : Nat
  popCounter : Nat
  stepCounter : Nat
deriving DecidableEq, Repr

/-- Observable outcome of the `while` loop of `solveLatinSquare`:
the returned boolean, the frames still on the stack at the moment the
loop exits (before the epilogue frees them), and the final counters. -/
structure SResult where
  solved : Bool
  exitStack : List Node
  pushCounter : Nat
  popCounter : Nat
deriving DecidableEq, Repr

/-- The `while (row != -1 && col != -1)` loop of `solveLatinSquare`,
one unit of fuel per evaluation of the loop condition (`none` = the loop
did not finish within `fuel` iterations, or the stack was empty, which
in C dereferences a null `stack->top`).  Each iteration: try to place a
value at the next empty cell of the top snapshot and push; otherwise pop,
and either report UNSOLVABLE (stack exhausted) or mark the popped value
as tried-and-failed in the new top's `moves` array.  The C index
`retNode->square[retNode->row][retNode->col] - 1` is an `int`; `Int.toNat`
totalises the (would-be undefined) negative case, and the claim about
`solveLoopChecked` below proves the index is in fact always in bounds. -/
def solveLoop : Nat → SState → Option SResult
  | 0, _ => none
  | fuel + 1, st =>
    match st.stack with
    | [] => none
    | top :: rest =>
      match findNextEmptyCellOpt top with
      | none => some ⟨true, top :: rest, st.pushCounter, st.popCounter⟩
      | some (row, col) =>
        match tryPlace top row col with
        | some placed =>
          solveLoop fuel
            ⟨push (top :: rest) placed, st.pushCounter + 1, st.popCounter, st.stepCounter + 1⟩
        | none =>
          match rest with
          | [] => some ⟨false, [], st.pushCounter, st.popCounter⟩
          | newTop :: rest2 =>
            let retNode := popCopy top
            let idx := (getCell retNode.square retNode.row retNode.col - 1).toNat
            solveLoop fuel
              ⟨{ newTop with moves := newTop.moves.set idx 0 } :: rest2,
                st.pushCounter, st.popCounter + 1, st.stepCounter + 1⟩

/-- `solveLatinSquare` of algorithm.c, called as in `main` of
latinsolver.c with the counters starting at 0, 0, 1.  The second
component of the result is the set of frames the caller can still reach
after the call: on the `true` path the epilogue `freeStack(stack)`
releases every frame, and on the `false` path every frame has already
been popped and freed, so both paths leave the caller with no snapshot. -/
def solveLatinSquare (stack : List Node) (fuel : Nat) : Option (Bool × List Node) :=
  (solveLoop fuel ⟨stack, 0, 0, 1⟩).map fun r =>
    (r.solved, if r.solved then [] else r.exitStack)

/-- The initial `Node` built by `readLatinNode`/`initNode` in
latinsolver.c: the grid read from the file, cursor at `(0, 0)`, all
`moves` flags 1. -/
def readLatinNode (g : List (List Int)) (size : Nat) : Node :=
  { square := g, size := size, row := 0, col := 0, moves := List.replicate size 1 }

/-- The solver state at the start of `solveLatinSquare` when invoked by
`main` on the grid `g0` of size `N`. -/
def initState (g0 : List (List Int)) (N : Nat) : SState :=
  ⟨[readLatinNode g0 N], 0, 0, 1⟩

/-! ### Well-formedness predicates and specification-level properties -/

/-- `g` is an `N`×`N` matrix: `N` rows, each of length `N`. -/
def WFGrid (g : List (List Int)) (N : Nat) : Prop :=
  g.length = N ∧ ∀ i < N, (g.getD i []).length = N

instance (g : List (List Int)) (N : Nat) : Decidable (WFGrid g N) := by
  unfold WFGrid; exact inferInstance

/-- The input-contract range check of `readLatinNode`:
every cell value lies in `[-N, N]`. -/
def cellsInRange (g : List (List Int)) (N : Nat) : Prop :=
  ∀ i < N, ∀ j < N, (getCell g i j).natAbs ≤ N

instance (g : List (List Int)) (N : Nat) : Decidable (cellsInRange g N) := by
  unfold cellsInRange; exact inferInstance

/-- No two non-zero cells of a row, and no two non-zero cells of a
column, share the same absolute value (the data-model invariant of the
spec). -/
def NoDupCells (g : List (List Int)) (N : Nat) : Prop :=
  (∀ i ∈ Finset.range N, ∀ j1 ∈ Finset.range N, ∀ j2 ∈ Finset.range N,
    j1 ≠ j2 → getCell g i j1 ≠ 0 → getCell g i j2 ≠ 0 →
    (getCell g i j1).natAbs ≠ (getCell g i j2).natAbs) ∧
  (∀ j ∈ Finset.range N, ∀ i1 ∈ Finset.range N, ∀ i2 ∈ Finset.range N,
    i1 ≠ i2 → getCell g i1 j ≠ 0 → getCell g i2 j ≠ 0 →
    (getCell g i1 j).natAbs ≠ (getCell g i2 j).natAbs)

instance (g : List (List Int)) (N : Nat) : Decidable (NoDupCells g N) := by
  unfold NoDupCells; exact inferInstance

/-- Every row and every column of `g` contains each value of `1..N`
(compared by absolute magnitude) exactly once. -/
def IsLatin (g : List (List Int)) (N : Nat) : Prop :=
  ∀ v ∈ Finset.Icc 1 N,
    (∀ i ∈ Finset.range N,
      ((Finset.range N).filter fun j => (getCell g i j).natAbs = v).card = 1) ∧
    (∀ j ∈ Finset.range N,
      ((Finset.range N).filter fun i => (getCell g i j).natAbs = v).card = 1)

instance (g : List (List Int)) (N : Nat) : Decidable (IsLatin g N) := by
  unfold IsLatin; exact inferInstance

/-- Number of empty (zero) cells among the `N`×`N` positions of `g`. -/
def zerosCount (g : List (List Int)) (N : Nat) : Nat :=
  (((Finset.range N) ×ˢ (Finset.range N)).filter fun p => getCell g p.1 p.2 = 0).card

/-! ### Basic lemmas about list update and access -/

lemma getD_set {α : Type} (l : List α) (m n : Nat) (a d : α) :
    (l.set m a).getD n d = if m = n ∧ m < l.length then a else l.getD n d := by
  rw [List.getD_eq_getElem?_getD, List.getElem?_set, List.getD_eq_getElem?_getD]
  by_cases h1 : m = n
  · subst h1
    by_cases h2 : m < l.length
    · simp [h2]
    · simp [h2, List.getElem?_eq_none (Nat.le_of_not_lt h2)]
  · simp [h1]

lemma getCell_setCell_self {g : List (List Int)} {r c : Nat} (h1 : r < g.length)
    (h2 : c < (g.getD r []).length) (v : Int) :
    getCell (setCell g r c v) r c = v := by
  unfold getCell setCell
  rw [getD_set, if_pos ⟨rfl, h1⟩, getD_set, if_pos ⟨rfl, h2⟩]

lemma getCell_setCell_ne {g : List (List Int)} (r c : Nat) {i j : Nat}
    (h : ¬(r = i ∧ c = j)) (v : Int) :
    getCell (setCell g r c v) i j = getCell g i j := by
  unfold getCell setCell
  rw [getD_set]
  by_cases h1 : r = i ∧ r < g.length
  · rw [if_pos h1]
    obtain ⟨h1a, _⟩ := h1
    subst h1a
    have hcj : ¬(c = j) := fun hc => h ⟨rfl, hc⟩
    rw [getD_set, if_neg (fun hh => hcj hh.1)]
  · rw [if_neg h1]

lemma WFGrid_setCell {g : List (List Int)} {N : Nat} (h : WFGrid g N) (r c : Nat) (v : Int) :
    WFGrid (setCell g r c v) N := by
  obtain ⟨hlen, hrow⟩ := h
  refine ⟨by simp [setCell, hlen], ?_⟩
  intro i hi
  unfold setCell
  rw [getD_set]
  by_cases h1 : r = i ∧ r < g.length
  · rw [if_pos h1, List.length_set]
    exact h1.1 ▸ hrow r (by omega)
  · rw [if_neg h1]
    exact hrow i hi

/-! ### First-hit characterisations of `find?` / `findSome?` over `range'` -/

lemma find?_range'_eq_none {p : Nat → Bool} :
    ∀ n s : Nat, ((List.range' s n).find? p = none ↔ ∀ j, s ≤ j → j < s + n → p j = false) := by
  intro n
  induction n with
  | zero =>
    intro s
    simp only [List.range']
    constructor
    · intro _ j h1 h2; omega
    · intro _; rfl
  | succ m ih =>
    intro s
    rw [List.range'_succ]
    cases hp : p s with
    | false =>
      simp only [List.find?_cons, hp]
      rw [ih (s + 1)]
      constructor
      · intro h j h1 h2
        rcases Nat.eq_or_lt_of_le h1 with h1 | h1
        · exact h1 ▸ hp
        · exact h j h1 (by omega)
      · intro h j h1 h2
        exact h j (by omega) (by omega)
    | true =>
      simp only [List.find?_cons, hp]
      constructor
      · intro h; cases h
      · intro h
        have := h s (Nat.le_refl s) (by omega)
        rw [hp] at this
        cases this

lemma find?_range'_eq_some {p : Nat → Bool} :
    ∀ n s c : Nat, (List.range' s n).find? p = some c →
      s ≤ c ∧ c < s + n ∧ p c = true ∧ ∀ j, s ≤ j → j < c → p j = false := by
  intro n
  induction n with
  | zero =>
    intro s c h
    simp [List.range'] at h
  | succ m ih =>
    intro s c h
    rw [List.range'_succ] at h
    cases hp : p s with
    | false =>
      simp only [List.find?_cons, hp] at h
      obtain ⟨h1, h2, h3, h4⟩ := ih (s + 1) c h
      refine ⟨by omega, by omega, h3, ?_⟩
      intro j hj1 hj2
      rcases Nat.eq_or_lt_of_le hj1 with hj | hj
      · exact hj ▸ hp
      · exact h4 j hj hj2
    | true =>
      simp only [List.find?_cons, hp, Option.some.injEq] at h
      subst h
      exact ⟨Nat.le_refl _, by omega, hp, fun j h1 h2 => absurd (Nat.lt_of_le_of_lt h1 h2)
        (Nat.lt_irrefl _)⟩

lemma findSome?_range'_eq_none {α : Type} {f : Nat → Option α} :
    ∀ n s : Nat,
      ((List.range' s n).findSome? f = none ↔ ∀ i, s ≤ i → i < s + n → f i = none) := by
  intro n
  induction n with
  | zero =>
    intro s
    simp only [List.range']
    constructor
    · intro _ i h1 h2; omega
    · intro _; rfl
  | succ m ih =>
    intro s
    rw [List.range'_succ]
    cases hf : f s with
    | none =>
      simp only [List.findSome?_cons, hf]
      rw [ih (s + 1)]
      constructor
      · intro h i h1 h2
        rcases Nat.eq_or_lt_of_le h1 with h1 | h1
        · exact h1 ▸ hf
        · exact h i h1 (by omega)
      · intro h i h1 h2
        exact h i (by omega) (by omega)
    | some b =>
      simp only [List.findSome?_cons, hf]
      constructor
      · intro h; cases h
      · intro h
        have := h s (Nat.le_refl s) (by omega)
        rw [hf] at this
        cases this

lemma findSome?_range'_eq_some {α : Type} {f : Nat → Option α} :
    ∀ (n s : Nat) (a : α), (List.range' s n).findSome? f = some a →
      ∃ i, s ≤ i ∧ i < s + n ∧ f i = some a ∧ ∀ i2, s ≤ i2 → i2 < i → f i2 = none := by
  intro n
  induction n with
  | zero =>
    intro s a h
    simp [List.range'] at h
  | succ m ih =>
    intro s a h
    rw [List.range'_succ] at h
    cases hf : f s with
    | none =>
      simp only [List.findSome?_cons, hf] at h
      obtain ⟨i, h1, h2, h3, h4⟩ := ih (s + 1) a h
      refine ⟨i, by omega, by omega, h3, ?_⟩
      intro i2 hi1 hi2
      rcases Nat.eq_or_lt_of_le hi1 with hi | hi
      · exact hi ▸ hf
      · exact h4 i2 hi hi2
    | some b =>
      simp only [List.findSome?_cons, hf, Option.some.injEq] at h
      subst h
      exact ⟨s, Nat.le_refl _, by omega, hf, fun i2 h1 h2 => absurd (Nat.lt_of_le_of_lt h1 h2)
        (Nat.lt_irrefl _)⟩

/-! ### The scan of `findNextEmptyCell` -/

/-- The set of positions examined by `findNextEmptyCell` starting from
the cursor of `nd`: rows `nd.row .. size-1`, where row `nd.row` starts
at column `nd.col` and every later row starts at column 0. -/
def scanRegion (nd : Node) (i j : Nat) : Prop :=
  nd.row ≤ i ∧ i < nd.size ∧ j < nd.size ∧ (i = nd.row → nd.col ≤ j)

lemma findRowFrom_eq_none {g : List (List Int)} {i j0 size : Nat} :
    findRowFrom g i j0 size = none ↔ ∀ j, j0 ≤ j → j < size → getCell g i j ≠ 0 := by
  unfold findRowFrom
  rw [find?_range'_eq_none]
  constructor
  · intro h j h1 h2
    have := h j h1 (by omega)
    rwa [beq_eq_false_iff_ne] at this
  · intro h j h1 h2
    rw [beq_eq_false_iff_ne]
    exact h j h1 (by omega)

lemma findRowFrom_eq_some {g : List (List Int)} {i j0 size c : Nat}
    (h : findRowFrom g i j0 size = some c) :
    j0 ≤ c ∧ c < size ∧ getCell g i c = 0 ∧ ∀ j, j0 ≤ j → j < c → getCell g i j ≠ 0 := by
  unfold findRowFrom at h
  obtain ⟨h1, h2, h3, h4⟩ := find?_range'_eq_some _ _ _ h
  rw [beq_iff_eq] at h3
  refine ⟨h1, by omega, h3, ?_⟩
  intro j hj1 hj2
  have := h4 j hj1 hj2
  rwa [beq_eq_false_iff_ne] at this

lemma findOpt_eq_none {nd : Node} :
    findNextEmptyCellOpt nd = none ↔
      ∀ i j, scanRegion nd i j → getCell nd.square i j ≠ 0 := by
  unfold findNextEmptyCellOpt
  rw [findSome?_range'_eq_none]
  constructor
  · rintro h i j ⟨h1, h2, h3, h4⟩
    have hrow := h i h1 (by omega)
    rw [Option.map_eq_none', findRowFrom_eq_none] at hrow
    refine hrow j ?_ h3
    by_cases hi : i = nd.row
    · rw [if_pos hi]; exact h4 hi
    · rw [if_neg hi]; omega
  · intro h i h1 h2
    rw [Option.map_eq_none', findRowFrom_eq_none]
    intro j hj0 hj
    refine h i j ⟨h1, by omega, hj, ?_⟩
    intro hi
    rwa [if_pos hi] at hj0

lemma findOpt_eq_some {nd : Node} {r c : Nat} (h : findNextEmptyCellOpt nd = some (r, c)) :
    scanRegion nd r c ∧ getCell nd.square r c = 0 ∧
      ∀ i j, scanRegion nd i j → (i < r ∨ (i = r ∧ j < c)) → getCell nd.square i j ≠ 0 := by
  unfold findNextEmptyCellOpt at h
  obtain ⟨i0, hi1, hi2, hsome, hbefore⟩ := findSome?_range'_eq_some _ _ _ h
  rw [Option.map_eq_some'] at hsome
  obtain ⟨c0, hc0, hpair⟩ := hsome
  cases hpair
  obtain ⟨hr1, hr2, hr3, hr4⟩ := findRowFrom_eq_some hc0
  refine ⟨⟨hi1, by omega, hr2, fun hR => by rwa [if_pos hR] at hr1⟩, hr3, ?_⟩
  rintro i j ⟨g1, g2, g3, g4⟩ hbef
  rcases hbef with hlt | ⟨heq, hcol⟩
  · have hnone := hbefore i g1 hlt
    rw [Option.map_eq_none', findRowFrom_eq_none] at hnone
    refine hnone j ?_ g3
    by_cases hi : i = nd.row
    · rw [if_pos hi]; exact g4 hi
    · rw [if_neg hi]; omega
  · subst heq
    refine hr4 j ?_ hcol
    by_cases hi : i = nd.row
    · rw [if_pos hi]; exact g4 hi
    · rw [if_neg hi]; omega

/-! ### The deep copy performed by `pop` reproduces a well-formed node -/

lemma copyMoves_eq {m : List Int} {N : Nat} (h : m.length = N) : copyMoves N m = m := by
  apply List.ext_getElem?
  intro n
  unfold copyMoves
  rw [List.getElem?_map]
  by_cases hn : n < N
  · rw [List.getElem?_range hn, Option.map_some']
    rw [List.getD_eq_getElem?_getD, List.getElem?_eq_getElem (by omega : n < m.length)]
    simp
  · rw [List.getElem?_eq_none (by rw [List.length_range]; omega),
      List.getElem?_eq_none (by omega : m.length ≤ n)]
    simp

lemma copyMatrix_eq {g : List (List Int)} {N : Nat} (h : WFGrid g N) : copyMatrix N g = g := by
  obtain ⟨hlen, hrow⟩ := h
  apply List.ext_getElem?
  intro n
  unfold copyMatrix
  rw [List.getElem?_map]
  by_cases hn : n < N
  · rw [List.getElem?_range hn, Option.map_some',
      List.getElem?_eq_getElem (by omega : n < g.length)]
    have hg : g.getD n [] = g[n] := List.getD_eq_getElem g [] (by omega)
    have hstep : ((List.range N).map fun j => getCell g n j) = copyMoves N (g.getD n []) := rfl
    rw [hstep, copyMoves_eq (hrow n hn), hg]
  · rw [List.getElem?_eq_none (by rw [List.length_range]; omega),
      List.getElem?_eq_none (by omega : g.length ≤ n)]
    simp

lemma popCopy_eq {nd : Node} (h : WFGrid nd.square nd.size) (hm : nd.moves.length = nd.size) :
    popCopy nd = nd := by
  unfold popCopy
  rw [copyMatrix_eq h, copyMoves_eq hm]

/-! ### The stack chain invariant of the backtracking driver -/

/-- Relation between a frame `b` and the frame `a` the driver pushed
directly above it: `a` is `b` with value `v` committed at the empty cell
`(r, c)` located by `findNextEmptyCell`, after `checkDuplicates`
accepted it.  Only the length of `a.moves` is recorded because the
backtracking marker later overwrites single entries in place. -/
def StepRel (N : Nat) (b a : Node) : Prop :=
  ∃ r c v, r < N ∧ c < N ∧ 1 ≤ v ∧ v ≤ N ∧
    findNextEmptyCellOpt b = some (r, c) ∧
    getCell b.square r c = 0 ∧
    checkDuplicates b (v : Int) r c = false ∧
    a.square = setCell b.square r c (v : Int) ∧
    a.row = r ∧ a.col = c ∧ a.size = N ∧ a.moves.length = N

/-- Invariant of the driver's stack: the bottom frame is the initial
snapshot of `g0` (its `moves` flags may have been rewritten in place),
and every frame is obtained from the one below it by one committed
placement. -/
def StackChain (N : Nat) (g0 : List (List Int)) : List Node → Prop
  | [] => False
  | [b] => b.square = g0 ∧ b.row = 0 ∧ b.col = 0 ∧ b.size = N ∧ b.moves.length = N
  | a :: b :: rest => StepRel N b a ∧ StackChain N g0 (b :: rest)

lemma chain_sizes {N : Nat} {g0 : List (List Int)} :
    ∀ {s : List Node}, StackChain N g0 s → ∀ nd ∈ s, nd.size = N ∧ nd.moves.length = N := by
  intro s
  induction s with
  | nil => intro h; cases h
  | cons a tail ih =>
    intro h nd hnd
    cases tail with
    | nil =>
      obtain ⟨_, _, _, h4, h5⟩ := h
      obtain rfl := List.mem_singleton.mp hnd
      exact ⟨h4, h5⟩
    | cons b rest =>
      obtain ⟨hstep, hchain⟩ := h
      rcases List.mem_cons.mp hnd with rfl | hnd2
      · obtain ⟨r, c, v, _, _, _, _, _, _, _, _, _, _, h11, h12⟩ := hstep
        exact ⟨h11, h12⟩
      · exact ih hchain nd hnd2

lemma chain_wf {N : Nat} {g0 : List (List Int)} (hg : WFGrid g0 N) :
    ∀ {s : List Node}, StackChain N g0 s → ∀ nd ∈ s, WFGrid nd.square N := by
  intro s
  induction s with
  | nil => intro h; cases h
  | cons a tail ih =>
    intro h nd hnd
    cases tail with
    | nil =>
      obtain ⟨h1, _, _, _, _⟩ := h
      obtain rfl := List.mem_singleton.mp hnd
      rw [h1]
      exact hg
    | cons b rest =>
      obtain ⟨hstep, hchain⟩ := h
      rcases List.mem_cons.mp hnd with rfl | hnd2
      · obtain ⟨r, c, v, _, _, _, _, _, _, _, hsq, _, _, _, _⟩ := hstep
        rw [hsq]
        exact WFGrid_setCell (ih hchain b (List.mem_cons_self _ _)) r c _
      · exact ih hchain nd hnd2

/-- All cells strictly before the cursor of `nd` in scan order are
non-empty.  This is the invariant that justifies the
resume-from-`(lastRow, lastCol)` optimisation of `findNextEmptyCell`. -/
def FilledUpTo (N : Nat) (nd : Node) : Prop :=
  ∀ i j, i < N → j < N → (i < nd.row ∨ (i = nd.row ∧ j < nd.col)) →
    getCell nd.square i j ≠ 0

lemma chain_filled {N : Nat} {g0 : List (List Int)} :
    ∀ (rest : List Node) (top : Node), StackChain N g0 (top :: rest) → FilledUpTo N top := by
  intro rest
  induction rest with
  | nil =>
    intro top h
    obtain ⟨_, hrow, hcol, _, _⟩ := h
    intro i j hi hj hbef
    rw [hrow, hcol] at hbef
    rcases hbef with h | ⟨_, h⟩ <;> omega
  | cons b rest2 ih =>
    intro top h
    obtain ⟨hstep, hchain⟩ := h
    have hb := ih b hchain
    have hbsz := (chain_sizes hchain b (List.mem_cons_self _ _)).1
    obtain ⟨r, c, v, hrN, hcN, hv1, hv2, hfind, hcell, hdup, hsq, hrow, hcol, _, _⟩ := hstep
    intro i j hi hj hbef
    rw [hrow, hcol] at hbef
    rw [hsq]
    have hne : ¬(r = i ∧ c = j) := by
      rintro ⟨rfl, rfl⟩
      rcases hbef with h | ⟨_, h⟩ <;> omega
    rw [getCell_setCell_ne _ _ hne]
    obtain ⟨breg, bcell, bfirst⟩ := findOpt_eq_some hfind
    by_cases hib : i < b.row
    · exact hb i j hi hj (Or.inl hib)
    by_cases hjb : i = b.row ∧ j < b.col
    · exact hb i j hi hj (Or.inr hjb)
    refine bfirst i j ⟨by omega, by omega, by omega, ?_⟩ hbef
    intro hieq
    by_contra hcol2
    exact hjb ⟨hieq, by omega⟩

lemma chain_preserve {N : Nat} {g0 : List (List Int)} :
    ∀ (rest : List Node) (top : Node), StackChain N g0 (top :: rest) →
      ∀ i j, i < N → j < N → getCell g0 i j ≠ 0 →
        getCell top.square i j = getCell g0 i j := by
  intro rest
  induction rest with
  | nil =>
    intro top h i j _ _ _
    rw [h.1]
  | cons b rest2 ih =>
    intro top h i j hi hj h0
    obtain ⟨hstep, hchain⟩ := h
    obtain ⟨r, c, v, hrN, hcN, hv1, hv2, hfind, hcell, hdup, hsq, hrow, hcol, _, _⟩ := hstep
    have hb := ih b hchain i j hi hj h0
    rw [hsq]
    have hne : ¬(r = i ∧ c = j) := by
      rintro ⟨rfl, rfl⟩
      exact h0 (hb ▸ hcell)
    rw [getCell_setCell_ne _ _ hne]
    exact hb

lemma chain_range {N : Nat} {g0 : List (List Int)} (hg : WFGrid g0 N)
    (h0 : cellsInRange g0 N) :
    ∀ (rest : List Node) (top : Node), StackChain N g0 (top :: rest) →
      cellsInRange top.square N := by
  intro rest
  induction rest with
  | nil =>
    intro top h
    rw [show top.square = g0 from h.1]
    exact h0
  | cons b rest2 ih =>
    intro top h
    obtain ⟨hstep, hchain⟩ := h
    obtain ⟨r, c, v, hrN, hcN, hv1, hv2, hfind, hcell, hdup, hsq, hrow, hcol, _, _⟩ := hstep
    have hb := ih b hchain
    have hWb := chain_wf hg hchain b (List.mem_cons_self _ _)
    intro i hi j hj
    rw [hsq]
    by_cases hrc : r = i ∧ c = j
    · obtain ⟨rfl, rfl⟩ := hrc
      rw [getCell_setCell_self (by rw [hWb.1]; omega) (by rw [hWb.2 r hrN]; omega)]
      simpa using hv2
    · rw [getCell_setCell_ne _ _ hrc]
      exact hb i hi j hj

lemma checkDuplicates_eq_false {nd : Node} {v r c : Nat}
    (h : checkDuplicates nd (v : Int) r c = false) :
    (∀ k, k < nd.size → k ≠ c → (getCell nd.square r k).natAbs ≠ v) ∧
    (∀ k, k < nd.size → k ≠ r → (getCell nd.square k c).natAbs ≠ v) := by
  unfold checkDuplicates at h
  rw [Bool.or_eq_false_iff] at h
  obtain ⟨h1, h2⟩ := h
  rw [List.any_eq_false] at h1 h2
  constructor
  · intro k hk hkc habs
    have hx := h1 k (List.mem_range.mpr hk)
    simp only [Bool.and_eq_true, decide_eq_true_eq, beq_iff_eq, not_and] at hx
    exact hx hkc (by rw [Int.abs_eq_natAbs, habs])
  · intro k hk hkr habs
    have hx := h2 k (List.mem_range.mpr hk)
    simp only [Bool.and_eq_true, decide_eq_true_eq, beq_iff_eq, not_and] at hx
    exact hx hkr (by rw [Int.abs_eq_natAbs, habs])

lemma chain_noDup {N : Nat} {g0 : List (List Int)} (hg : WFGrid g0 N)
    (h0 : NoDupCells g0 N) :
    ∀ (rest : List Node) (top : Node), StackChain N g0 (top :: rest) →
      NoDupCells top.square N := by
  intro rest
  induction rest with
  | nil =>
    intro top h
    rw [show top.square = g0 from h.1]
    exact h0
  | cons b rest2 ih =>
    intro top h
    obtain ⟨hstep, hchain⟩ := h
    obtain ⟨r, c, v, hrN, hcN, hv1, hv2, hfind, hcell, hdup, hsq, hrow, hcol, _, _⟩ := hstep
    have hb := ih b hchain
    have hWb := chain_wf hg hchain b (List.mem_cons_self _ _)
    have hbsz := (chain_sizes hchain b (List.mem_cons_self _ _)).1
    obtain ⟨hdupRow, hdupCol⟩ := checkDuplicates_eq_false hdup
    have hself : getCell top.square r c = (v : Int) := by
      rw [hsq]
      exact getCell_setCell_self (by rw [hWb.1]; omega) (by rw [hWb.2 r hrN]; omega) _
    have hother : ∀ i j : Nat, ¬(r = i ∧ c = j) →
        getCell top.square i j = getCell b.square i j := by
      intro i j hne
      rw [hsq, getCell_setCell_ne _ _ hne]
    constructor
    · -- rows
      intro i hi j1 hj1 j2 hj2 hne hz1 hz2
      rw [Finset.mem_range] at hi hj1 hj2
      by_cases hc1 : r = i ∧ c = j1
      · obtain ⟨rfl, rfl⟩ := hc1
        rw [hself]
        have hj2o := hother r j2 (fun hh => hne hh.2)
        rw [hj2o]
        intro habs
        have := hdupRow j2 (by omega) (fun hh => hne hh.symm)
        rw [hj2o] at hz2
        simp only [Int.natAbs_ofNat] at habs
        exact this habs.symm
      by_cases hc2 : r = i ∧ c = j2
      · obtain ⟨rfl, rfl⟩ := hc2
        rw [hself]
        have hj1o := hother r j1 (fun hh => hne hh.2.symm)
        rw [hj1o]
        intro habs
        have := hdupRow j1 (by omega) (fun hh => hne hh)
        rw [hj1o] at hz1
        simp only [Int.natAbs_ofNat] at habs
        exact this habs
      · rw [hother i j1 hc1, hother i j2 hc2]
        rw [hother i j1 hc1] at hz1
        rw [hother i j2 hc2] at hz2
        exact hb.1 i (Finset.mem_range.mpr hi) j1 (Finset.mem_range.mpr hj1) j2
          (Finset.mem_range.mpr hj2) hne hz1 hz2
    · -- columns
      intro j hj i1 hi1 i2 hi2 hne hz1 hz2
      rw [Finset.mem_range] at hj hi1 hi2
      by_cases hc1 : r = i1 ∧ c = j
      · obtain ⟨rfl, rfl⟩ := hc1
        rw [hself]
        have hi2o := hother i2 c (fun hh => hne hh.1)
        rw [hi2o]
        intro habs
        have := hdupCol i2 (by omega) (fun hh => hne hh.symm)
        rw [hi2o] at hz2
        simp only [Int.natAbs_ofNat] at habs
        exact this habs.symm
      by_cases hc2 : r = i2 ∧ c = j
      · obtain ⟨rfl, rfl⟩ := hc2
        rw [hself]
        have hi1o := hother i1 c (fun hh => hne hh.1.symm)
        rw [hi1o]
        intro habs
        have := hdupCol i1 (by omega) (fun hh => hne hh)
        rw [hi1o] at hz1
        simp only [Int.natAbs_ofNat] at habs
        exact this habs
      · rw [hother i1 j hc1, hother i2 j hc2]
        rw [hother i1 j hc1] at hz1
        rw [hother i2 j hc2] at hz2
        exact hb.2 j (Finset.mem_range.mpr hj) i1 (Finset.mem_range.mpr hi1) i2
          (Finset.mem_range.mpr hi2) hne hz1 hz2

lemma zerosCount_setCell {g : List (List Int)} {N r c : Nat} (hW : WFGrid g N)
    (hr : r < N) (hc : c < N) (h0 : getCell g r c = 0) {v : Int} (hv : v ≠ 0) :
    zerosCount (setCell g r c v) N + 1 = zerosCount g N := by
  unfold zerosCount
  have hmem : ((r, c) : Nat × Nat) ∈ ((Finset.range N) ×ˢ (Finset.range N)).filter
      (fun p => getCell g p.1 p.2 = 0) := by
    rw [Finset.mem_filter, Finset.mem_product, Finset.mem_range, Finset.mem_range]
    exact ⟨⟨hr, hc⟩, h0⟩
  have hset : ((Finset.range N) ×ˢ (Finset.range N)).filter
      (fun p => getCell (setCell g r c v) p.1 p.2 = 0) =
      (((Finset.range N) ×ˢ (Finset.range N)).filter
        (fun p => getCell g p.1 p.2 = 0)).erase (r, c) := by
    ext p
    rw [Finset.mem_filter, Finset.mem_erase, Finset.mem_filter]
    constructor
    · rintro ⟨hp, hp0⟩
      have hne : ¬(r = p.1 ∧ c = p.2) := by
        rintro ⟨h1, h2⟩
        rw [← h1, ← h2] at hp0
        rw [getCell_setCell_self (by rw [hW.1]; omega) (by rw [hW.2 r hr]; omega)] at hp0
        exact hv hp0
      refine ⟨?_, hp, ?_⟩
      · intro heq
        exact hne ⟨(congrArg Prod.fst heq).symm, (congrArg Prod.snd heq).symm⟩
      · rwa [getCell_setCell_ne _ _ hne] at hp0
    · rintro ⟨hpne, hp, hp0⟩
      have hne : ¬(r = p.1 ∧ c = p.2) := by
        rintro ⟨h1, h2⟩
        exact hpne (Prod.ext h1.symm h2.symm)
      rw [getCell_setCell_ne _ _ hne]
      exact ⟨hp, hp0⟩
  rw [hset, Finset.card_erase_of_mem hmem]
  have hpos : 0 < (((Finset.range N) ×ˢ (Finset.range N)).filter
      (fun p => getCell g p.1 p.2 = 0)).card := Finset.card_pos.mpr ⟨_, hmem⟩
  omega

lemma chain_zeros {N : Nat} {g0 : List (List Int)} (hg : WFGrid g0 N) :
    ∀ (rest : List Node) (top : Node), StackChain N g0 (top :: rest) →
      zerosCount top.square N + rest.length = zerosCount g0 N := by
  intro rest
  induction rest with
  | nil =>
    intro top h
    rw [show top.square = g0 from h.1]
    simp
  | cons b rest2 ih =>
    intro top h
    obtain ⟨hstep, hchain⟩ := h
    obtain ⟨r, c, v, hrN, hcN, hv1, hv2, hfind, hcell, hdup, hsq, hrow, hcol, _, _⟩ := hstep
    have hIH := ih b hchain
    have hWb := chain_wf hg hchain b (List.mem_cons_self _ _)
    have hvne : (v : Int) ≠ 0 := by
      simp only [ne_eq, Int.natCast_eq_zero]
      omega
    have hz := zerosCount_setCell hWb hrN hcN hcell hvne
    rw [hsq]
    simp only [List.length_cons]
    omega

/-! ### One driver step preserves the chain invariant -/

lemma tryPlace_eq_some {nd : Node} {row col : Nat} {placed : Node}
    (h : tryPlace nd row col = some placed) :
    ∃ v, 1 ≤ v ∧ v ≤ nd.size ∧ nd.moves.getD (v - 1) 0 = 1 ∧
      checkDuplicates nd (v : Int) row col = false ∧
      placed = updateNode nd row col (v : Int) ∧
      ∀ w, 1 ≤ w → w < v →
        ¬(nd.moves.getD (w - 1) 0 = 1 ∧ checkDuplicates nd (w : Int) row col = false) := by
  unfold tryPlace at h
  rw [Option.map_eq_some'] at h
  obtain ⟨v, hfind, hplaced⟩ := h
  obtain ⟨h1, h2, h3, h4⟩ := find?_range'_eq_some _ _ _ hfind
  rw [Bool.and_eq_true, beq_iff_eq, Bool.not_eq_true'] at h3
  refine ⟨v, h1, by omega, h3.1, h3.2, hplaced.symm, ?_⟩
  rintro w hw1 hw2 ⟨hm, hd⟩
  have hw := h4 w hw1 hw2
  rw [hm, hd] at hw
  simp at hw

lemma chain_push {N : Nat} {g0 : List (List Int)} {top : Node} {rest : List Node}
    {r c : Nat} {placed : Node}
    (hch : StackChain N g0 (top :: rest))
    (hfind : findNextEmptyCellOpt top = some (r, c))
    (htry : tryPlace top r c = some placed) :
    StackChain N g0 (placed :: top :: rest) := by
  obtain ⟨v, hv1, hv2, _, hdup, hplaced, _⟩ := tryPlace_eq_some htry
  have hsz := (chain_sizes hch top (List.mem_cons_self _ _)).1
  obtain ⟨⟨_, hreg2, hreg3, _⟩, hcell, _⟩ := findOpt_eq_some hfind
  subst hplaced
  exact ⟨⟨r, c, v, by omega, by omega, hv1, by omega, hfind, hcell, hdup, rfl, rfl, rfl,
    hsz, by simp [updateNode, hsz]⟩, hch⟩

lemma chain_moves_set {N : Nat} {g0 : List (List Int)} {nd : Node} {rest : List Node}
    (k : Nat) (x : Int) (h : StackChain N g0 (nd :: rest)) :
    StackChain N g0 ({ nd with moves := nd.moves.set k x } :: rest) := by
  cases rest with
  | nil =>
    obtain ⟨h1, h2, h3, h4, h5⟩ := h
    exact ⟨h1, h2, h3, h4, by rw [List.length_set]; exact h5⟩
  | cons b rest2 =>
    obtain ⟨hstep, hch⟩ := h
    obtain ⟨r, c, v, a1, a2, a3, a4, a5, a6, a7, a8, a9, a10, a11, a12⟩ := hstep
    exact ⟨⟨r, c, v, a1, a2, a3, a4, a5, a6, a7, a8, a9, a10, a11,
      by rw [List.length_set]; exact a12⟩, hch⟩

lemma complete_of_filled_none {N : Nat} {nd : Node} (hsz : nd.size = N)
    (hfill : FilledUpTo N nd) (hnone : findNextEmptyCellOpt nd = none) :
    ∀ i j, i < N → j < N → getCell nd.square i j ≠ 0 := by
  intro i j hi hj
  rw [findOpt_eq_none] at hnone
  by_cases hib : i < nd.row
  · exact hfill i j hi hj (Or.inl hib)
  by_cases hjb : i = nd.row ∧ j < nd.col
  · exact hfill i j hi hj (Or.inr hjb)
  refine hnone i j ⟨by omega, by omega, by omega, ?_⟩
  intro hieq
  by_contra hc
  exact hjb ⟨hieq, by omega⟩

/-! ### Soundness of the driver loop -/

/-- Full driver invariant: the stack is a valid chain and the counters
record the net stack growth (`pushes - pops = depth - 1`). -/
def CInv (N : Nat) (g0 : List (List Int)) (st : SState) : Prop :=
  StackChain N g0 st.stack ∧ st.pushCounter + 1 = st.popCounter + st.stack.length

lemma chain_init {N : Nat} {g0 : List (List Int)} :
    StackChain N g0 [readLatinNode g0 N] := by
  show _ ∧ _ ∧ _ ∧ _ ∧ _
  refine ⟨rfl, rfl, rfl, rfl, ?_⟩
  simp [readLatinNode]

lemma solveLoop_sound {N : Nat} {g0 : List (List Int)} (hg : WFGrid g0 N) :
    ∀ (fuel : Nat) (st : SState) (r : SResult), CInv N g0 st → solveLoop fuel st = some r →
      (r.solved = true → ∃ top rest, r.exitStack = top :: rest ∧
        StackChain N g0 (top :: rest) ∧ findNextEmptyCellOpt top = none ∧
        r.pushCounter + 1 = r.popCounter + rest.length + 1) ∧
      (r.solved = false → r.exitStack = []) := by
  intro fuel
  induction fuel with
  | zero =>
    intro st r _ h
    simp [solveLoop] at h
  | succ m ih =>
    intro st r hinv hrun
    obtain ⟨hchain, hcnt⟩ := hinv
    obtain ⟨stack, pc, qc, sc⟩ := st
    cases stack with
    | nil => cases hchain
    | cons top rest =>
      simp only [solveLoop] at hrun
      simp only [List.length_cons] at hcnt
      cases hfind : findNextEmptyCellOpt top with
      | none =>
        simp only [hfind] at hrun
        cases hrun
        refine ⟨fun _ => ⟨top, rest, rfl, hchain, hfind,
          by change pc + 1 = qc + rest.length + 1; omega⟩, fun hfb => ?_⟩
        simp at hfb
      | some rc =>
        obtain ⟨row, col⟩ := rc
        simp only [hfind] at hrun
        cases htry : tryPlace top row col with
        | some placed =>
          simp only [htry] at hrun
          refine ih _ r ⟨chain_push hchain hfind htry, ?_⟩ hrun
          simp only [push, List.length_cons]
          omega
        | none =>
          simp only [htry] at hrun
          cases rest with
          | nil =>
            cases hrun
            exact ⟨fun ht => by simp at ht, fun _ => rfl⟩
          | cons newTop rest2 =>
            simp only [List.length_cons] at hcnt
            refine ih _ r ⟨chain_moves_set _ _ hchain.2, ?_⟩ hrun
            simp only [List.length_cons]
            omega

/-- The outcome of any terminating run of `solveLatinSquare` from the
state `main` hands it, in case the result is SOLVED: the stack at loop
exit is a valid chain whose top is a completed grid, and the counters
balance against the number of initially empty cells. -/
lemma solveLoop_solved_top {N : Nat} {g0 : List (List Int)} (hg : WFGrid g0 N)
    {fuel : Nat} {r : SResult}
    (hrun : solveLoop fuel (initState g0 N) = some r) (hs : r.solved = true) :
    ∃ top rest, r.exitStack = top :: rest ∧ StackChain N g0 (top :: rest) ∧
      (∀ i j, i < N → j < N → getCell top.square i j ≠ 0) ∧
      r.pushCounter + 1 = r.popCounter + rest.length + 1 ∧
      zerosCount top.square N + rest.length = zerosCount g0 N ∧
      top.size = N := by
  have hinv : CInv N g0 (initState g0 N) := ⟨chain_init, by simp [initState]⟩
  obtain ⟨h1, _⟩ := solveLoop_sound hg fuel _ r hinv hrun
  obtain ⟨top, rest, he, hch, hnone, hcnt⟩ := h1 hs
  have hsz := (chain_sizes hch top (List.mem_cons_self _ _)).1
  have hfill := chain_filled rest top hch
  have hcomp := complete_of_filled_none hsz hfill hnone
  have hz := chain_zeros hg rest top hch
  exact ⟨top, rest, he, hch, hcomp, hcnt, hz, hsz⟩

lemma solveLoop_unsolvable_empty {N : Nat} {g0 : List (List Int)} (hg : WFGrid g0 N)
    {fuel : Nat} {r : SResult}
    (hrun : solveLoop fuel (initState g0 N) = some r) (hs : r.solved = false) :
    r.exitStack = [] := by
  have hinv : CInv N g0 (initState g0 N) := ⟨chain_init, by simp [initState]⟩
  exact (solveLoop_sound hg fuel _ r hinv hrun).2 hs

/-! ### From a complete duplicate-free grid to the Latin property -/

lemma filter_card_one {N : Nat} (f : Nat → Nat)
    (hinj : ∀ a, a < N → ∀ b, b < N → a ≠ b → f a ≠ f b)
    (hlo : ∀ a, a < N → 1 ≤ f a) (hhi : ∀ a, a < N → f a ≤ N) :
    ∀ v, 1 ≤ v → v ≤ N → ((Finset.range N).filter fun a => f a = v).card = 1 := by
  have hinjOn : Set.InjOn f (Finset.range N) := by
    intro a ha b hb hab
    by_contra hne
    exact hinj a (by simpa using ha) b (by simpa using hb) hne hab
  have hcard : ((Finset.range N).image f).card = N := by
    rw [Finset.card_image_of_injOn hinjOn, Finset.card_range]
  have hsub : (Finset.range N).image f ⊆ Finset.Icc 1 N := by
    intro x hx
    rw [Finset.mem_image] at hx
    obtain ⟨a, ha, rfl⟩ := hx
    rw [Finset.mem_range] at ha
    rw [Finset.mem_Icc]
    exact ⟨hlo a ha, hhi a ha⟩
  have heq : (Finset.range N).image f = Finset.Icc 1 N := by
    apply Finset.eq_of_subset_of_card_le hsub
    rw [Nat.card_Icc, hcard]
    omega
  intro v hv1 hv2
  have hvmem : v ∈ (Finset.range N).image f := by
    rw [heq, Finset.mem_Icc]
    exact ⟨hv1, hv2⟩
  rw [Finset.mem_image] at hvmem
  obtain ⟨a, ha, hfa⟩ := hvmem
  rw [Finset.card_eq_one]
  refine ⟨a, ?_⟩
  ext b
  rw [Finset.mem_filter, Finset.mem_singleton]
  constructor
  · rintro ⟨hb, hfb⟩
    by_contra hne
    exact hinj b (by simpa using hb) a (by simpa using ha) hne (by rw [hfb, hfa])
  · rintro rfl
    exact ⟨ha, hfa⟩

lemma isLatin_of {g : List (List Int)} {N : Nat} (hW : WFGrid g N)
    (hC : ∀ i j, i < N → j < N → getCell g i j ≠ 0)
    (hR : cellsInRange g N) (hD : NoDupCells g N) : IsLatin g N := by
  intro v hv
  rw [Finset.mem_Icc] at hv
  constructor
  · intro i hi
    rw [Finset.mem_range] at hi
    refine filter_card_one (fun j => (getCell g i j).natAbs) ?_ ?_ ?_ v hv.1 hv.2
    · intro a ha b hb hab
      exact hD.1 i (Finset.mem_range.mpr hi) a (Finset.mem_range.mpr ha)
        b (Finset.mem_range.mpr hb) hab (hC i a hi ha) (hC i b hi hb)
    · intro a ha
      exact Int.natAbs_pos.mpr (hC i a hi ha)
    · intro a ha
      exact hR i hi a ha
  · intro j hj
    rw [Finset.mem_range] at hj
    refine filter_card_one (fun i => (getCell g i j).natAbs) ?_ ?_ ?_ v hv.1 hv.2
    · intro a ha b hb hab
      exact hD.2 j (Finset.mem_range.mpr hj) a (Finset.mem_range.mpr ha)
        b (Finset.mem_range.mpr hb) hab (hC a j ha hj) (hC b j hb hj)
    · intro a ha
      exact Int.natAbs_pos.mpr (hC a j ha hj)
    · intro a ha
      exact hR a ha j hj

/-! ### The backtracking write is always in bounds -/

/-- `solveLoop` with the backtracking write guarded by the array-bounds
check the C code omits: `stack->top->moves[v - 1] = 0` is only executed
when the popped value `v` satisfies `1 ≤ v` and `v - 1` is inside the
new top's `moves` array, and the run aborts (`none`) otherwise. -/
def solveLoopChecked : Nat → SState → Option SResult
  | 0, _ => none
  | fuel + 1, st =>
    match st.stack with
    | [] => none
    | top :: rest =>
      match findNextEmptyCellOpt top with
      | none => some ⟨true, top :: rest, st.pushCounter, st.popCounter⟩
      | some (row, col) =>
        match tryPlace top row col with
        | some placed =>
          solveLoopChecked fuel
            ⟨push (top :: rest) placed, st.pushCounter + 1, st.popCounter, st.stepCounter + 1⟩
        | none =>
          match rest with
          | [] => some ⟨false, [], st.pushCounter, st.popCounter⟩
          | newTop :: rest2 =>
            let retNode := popCopy top
            let v := getCell retNode.square retNode.row retNode.col
            if 1 ≤ v ∧ v ≤ (newTop.moves.length : Int) then
              solveLoopChecked fuel
                ⟨{ newTop with moves := newTop.moves.set (v - 1).toNat 0 } :: rest2,
                  st.pushCounter, st.popCounter + 1, st.stepCounter + 1⟩
            else none

lemma solveLoopChecked_eq {N : Nat} {g0 : List (List Int)} (hg : WFGrid g0 N) :
    ∀ (fuel : Nat) (st : SState), StackChain N g0 st.stack →
      solveLoopChecked fuel st = solveLoop fuel st := by
  intro fuel
  induction fuel with
  | zero => intro st _; rfl
  | succ m ih =>
    intro st hchain
    obtain ⟨stack, pc, qc, sc⟩ := st
    cases stack with
    | nil => rfl
    | cons top rest =>
      cases hfind : findNextEmptyCellOpt top with
      | none => simp only [solveLoopChecked, solveLoop, hfind]
      | some rc =>
        obtain ⟨row, col⟩ := rc
        cases htry : tryPlace top row col with
        | some placed =>
          simp only [solveLoopChecked, solveLoop, hfind, htry]
          exact ih _ (chain_push hchain hfind htry)
        | none =>
          cases rest with
          | nil => simp only [solveLoopChecked, solveLoop, hfind, htry]
          | cons newTop rest2 =>
            have hWtop : WFGrid top.square N :=
              chain_wf hg hchain top (List.mem_cons_self _ _)
            obtain ⟨hstep, hch2⟩ := hchain
            obtain ⟨r, c, v, hrN, hcN, hv1, hv2, _, _, _, hsq, hrow, hcol, hszTop, hmlTop⟩ :=
              hstep
            have hWtop' : WFGrid top.square top.size := by rw [hszTop]; exact hWtop
            have hpc : popCopy top = top := popCopy_eq hWtop' (by rw [hmlTop, hszTop])
            have hWnewTop : WFGrid newTop.square N :=
              chain_wf hg hch2 newTop (List.mem_cons_self _ _)
            have hval : getCell top.square top.row top.col = (v : Int) := by
              rw [hsq, hrow, hcol]
              exact getCell_setCell_self (by rw [hWnewTop.1]; omega)
                (by rw [hWnewTop.2 r hrN]; omega) _
            have hml : newTop.moves.length = N :=
              (chain_sizes hch2 newTop (List.mem_cons_self _ _)).2
            simp only [solveLoopChecked, solveLoop, hfind, htry]
            rw [hpc, hval]
            rw [if_pos ⟨by exact_mod_cast hv1, by rw [hml]; exact_mod_cast hv2⟩]
            exact ih _ (chain_moves_set _ _ hch2)

/-! ### Spec-side description of the scan order (for the refinement
claim C6) -/

/-- Written from the spec's words, to be compared with the embedded
`findNextEmptyCell`: the row-major scan order starting at
`(lastRow, lastCol)`, wrapping the column index to 0 on each subsequent
row. -/
def specScanOrder (size row col : Nat) : List (Nat × Nat) :=
  (List.range' row (size - row)).bind fun i =>
    (List.range' (if i = row then col else 0) (size - (if i = row then col else 0))).map
      fun j => (i, j)

lemma find?_bind {α β : Type} (l : List α) (f : α → List β) (p : β → Bool) :
    (l.bind f).find? p = l.findSome? fun a => (f a).find? p := by
  induction l with
  | nil => rfl
  | cons a tail ih =>
    have hcons : (a :: tail).bind f = f a ++ tail.bind f := rfl
    rw [hcons, List.find?_append]
    cases hfa : (f a).find? p with
    | none => simp [List.findSome?_cons, hfa, ih]
    | some b => simp [List.findSome?_cons, hfa]

lemma findOpt_eq_spec (nd : Node) :
    findNextEmptyCellOpt nd =
      (specScanOrder nd.size nd.row nd.col).find?
        (fun p => getCell nd.square p.1 p.2 == 0) := by
  unfold findNextEmptyCellOpt specScanOrder findRowFrom
  rw [find?_bind]
  simp only [List.find?_map]
  rfl

/-- Shared by the fully-pre-filled boundary claims: when the initial
grid has no zero cell at all, the very first `findNextEmptyCell` scan
fails, the loop body never runs, and the driver returns SOLVED with
both counters at 0 and the stack untouched. -/
lemma solveLoop_immediate {N : Nat} {g0 : List (List Int)}
    (hfull : ∀ i < N, ∀ j < N, getCell g0 i j ≠ 0) (fuel : Nat) :
    solveLoop (fuel + 1) (initState g0 N) =
      some ⟨true, [readLatinNode g0 N], 0, 0⟩ := by
  have hnone : findNextEmptyCellOpt (readLatinNode g0 N) = none := by
    rw [findOpt_eq_none]
    rintro i j ⟨h1, h2, h3, _⟩
    exact hfull i h2 j h3
  simp only [solveLoop, initState, hnone]

/-! ### The claims -/

/-- Claim C1, counterexample: on the 1×1 clue grid `[[-1]]` the solve
attempt terminates SOLVED (`solveLatinSquare` returns `true`), yet the
frame list reachable by the caller after the call is empty — the
epilogue `freeStack(stack)` has released every Snapshot, including the
top one, so no completed Grid Snapshot is returned to the caller,
contradicting the claim that the solved grid is still available. -/
theorem C1_counterexample :
    solveLatinSquare [readLatinNode [[-1]] 1] 1 = some (true, []) := by rfl

/-- Claim C1 (amended): when the solve attempt terminates SOLVED, the
Stack's top Snapshot at loop exit is a completed grid with every cell
non-zero, but `solveLatinSquare` then frees the whole stack before
returning `true`, so the caller is left with no snapshot at all; on
UNSOLVABLE every frame has likewise been popped and freed. -/
theorem C1_theorem {N : Nat} {g0 : List (List Int)} (hg : WFGrid g0 N) {fuel : Nat}
    {b : Bool} {s : List Node}
    (hrun : solveLatinSquare [readLatinNode g0 N] fuel = some (b, s)) :
    s = [] ∧
      (b = true → ∃ r, solveLoop fuel (initState g0 N) = some r ∧ r.solved = true ∧
        ∃ top rest, r.exitStack = top :: rest ∧
          ∀ i j, i < N → j < N → getCell top.square i j ≠ 0) := by
  unfold solveLatinSquare at hrun
  cases hloop : solveLoop fuel ⟨[readLatinNode g0 N], 0, 0, 1⟩ with
  | none =>
    rw [hloop] at hrun
    cases hrun
  | some r =>
    rw [hloop] at hrun
    rw [Option.map_some'] at hrun
    have h2 := Option.some.inj hrun
    rw [Prod.mk.injEq] at h2
    obtain ⟨hb, hs⟩ := h2
    cases hsol : r.solved with
    | false =>
      constructor
      · rw [← hs, if_neg (by rw [hsol]; exact Bool.false_ne_true)]
        exact solveLoop_unsolvable_empty hg hloop hsol
      · intro hbt
        rw [← hb, hsol] at hbt
        cases hbt
    | true =>
      constructor
      · rw [← hs, if_pos (by rw [hsol])]
      · intro _
        obtain ⟨top, rest, he, _, hcomp, _, _, _⟩ := solveLoop_solved_top hg hloop hsol
        exact ⟨r, hloop, hsol, top, rest, he, hcomp⟩

/-- Claim C1, witness for the amended theorem: a 1×1 puzzle with one
empty cell is solved, and the stack handed back to the caller is
empty. -/
theorem C1_witness :
    ∃ s : List Node, solveLatinSquare [readLatinNode [[0]] 1] 2 = some (true, s) ∧ s = [] := by
  refine ⟨[], by rfl, ?_⟩
  exact (@C1_theorem 1 [[0]] (by decide) 2 true [] (by rfl)).1

/-- Claim C2, counterexample: the fully pre-filled but invalid grid
`[[1,1],[1,1]]` is reported SOLVED (the loop exits on its first
iteration without examining any value), yet its rows and columns are
not Latin: value 1 appears twice in row 0. -/
theorem C2_counterexample :
    solveLoop 1 (initState [[1, 1], [1, 1]] 2) =
      some ⟨true, [readLatinNode [[1, 1], [1, 1]] 2], 0, 0⟩ ∧
    ¬ IsLatin (readLatinNode [[1, 1], [1, 1]] 2).square 2 := by
  exact ⟨by rfl, by decide⟩

/-- Claim C2 (amended): for every well-formed input grid whose values
are in range and whose non-zero cells already satisfy the row/column
no-duplicate invariant, if the solver reports SOLVED then every row and
every column of the exit grid contains each value in `1..N` (by
absolute magnitude) exactly once. -/
theorem C2_theorem {N : Nat} {g0 : List (List Int)} (hg : WFGrid g0 N)
    (hr : cellsInRange g0 N) (hd : NoDupCells g0 N) {fuel : Nat} {r : SResult}
    (hrun : solveLoop fuel (initState g0 N) = some r) (hs : r.solved = true) :
    ∃ top rest, r.exitStack = top :: rest ∧ IsLatin top.square N := by
  obtain ⟨top, rest, he, hch, hcomp, _, _, _⟩ := solveLoop_solved_top hg hrun hs
  refine ⟨top, rest, he, ?_⟩
  exact isLatin_of (chain_wf hg hch top (List.mem_cons_self _ _)) hcomp
    (chain_range hg hr rest top hch) (chain_noDup hg hd rest top hch)

/-- Claim C2, witness: solving the empty 1×1 grid yields the Latin
square `[[1]]`. -/
theorem C2_witness : IsLatin [[1]] 1 := by
  have h := @C2_theorem 1 [[0]] (by decide) (by decide) (by decide) 3
    ⟨true, [⟨[[1]], 1, 0, 0, [1]⟩, ⟨[[0]], 1, 0, 0, [1]⟩], 1, 0⟩ (by rfl) (by rfl)
  obtain ⟨top, rest, he, hl⟩ := h
  injection he with htop hrest
  subst htop
  exact hl

/-- Claim C3: on a SOLVED run, every cell that was negative (a clue) in
the input holds the same value in the exit grid, and more generally
every non-zero input cell is preserved — the solver only ever writes to
cells holding 0. -/
theorem C3_theorem {N : Nat} {g0 : List (List Int)} (hg : WFGrid g0 N)
    {fuel : Nat} {r : SResult}
    (hrun : solveLoop fuel (initState g0 N) = some r) (hs : r.solved = true) :
    ∃ top rest, r.exitStack = top :: rest ∧
      (∀ i j, i < N → j < N → getCell g0 i j < 0 →
        getCell top.square i j = getCell g0 i j) ∧
      (∀ i j, i < N → j < N → getCell g0 i j ≠ 0 →
        getCell top.square i j = getCell g0 i j) := by
  obtain ⟨top, rest, he, hch, _, _, _, _⟩ := solveLoop_solved_top hg hrun hs
  have hp := chain_preserve rest top hch
  exact ⟨top, rest, he, fun i j hi hj hneg => hp i j hi hj (by omega), hp⟩

/-- Claim C3, witness: the clue `-1` at `(0,0)` of `[[-1,0],[0,0]]`
is intact in the solved grid `[[-1,2],[2,1]]`. -/
theorem C3_witness :
    getCell [[-1, 2], [2, 1]] 0 0 = getCell [[-1, 0], [0, 0]] 0 0 := by
  have h := @C3_theorem 2 [[-1, 0], [0, 0]] (by decide) 10
    ⟨true, [⟨[[-1, 2], [2, 1]], 2, 1, 1, [1, 1]⟩, ⟨[[-1, 2], [2, 0]], 2, 1, 0, [1, 1]⟩,
      ⟨[[-1, 2], [0, 0]], 2, 0, 1, [1, 1]⟩, ⟨[[-1, 0], [0, 0]], 2, 0, 0, [1, 1]⟩], 3, 0⟩
    (by rfl) (by rfl)
  obtain ⟨top, rest, he, hneg, _⟩ := h
  injection he with htop hrest
  subst htop
  exact hneg 0 0 (by decide) (by decide) (by decide)

/-- Claim C4: on every SOLVED run started by `main` (counters at zero),
the number of `push` calls minus the number of `pop` calls performed by
the driver equals the number of empty cells of the input grid. -/
theorem C4_theorem {N : Nat} {g0 : List (List Int)} (hg : WFGrid g0 N)
    {fuel : Nat} {r : SResult}
    (hrun : solveLoop fuel (initState g0 N) = some r) (hs : r.solved = true) :
    r.pushCounter = r.popCounter + zerosCount g0 N := by
  obtain ⟨top, rest, he, hch, hcomp, hcnt, hz, hsz⟩ := solveLoop_solved_top hg hrun hs
  have h0 : zerosCount top.square N = 0 := by
    unfold zerosCount
    rw [Finset.card_eq_zero, Finset.filter_eq_empty_iff]
    rintro ⟨i, j⟩ hp
    rw [Finset.mem_product, Finset.mem_range, Finset.mem_range] at hp
    exact hcomp i j hp.1 hp.2
  omega

/-- Claim C4, witness: the puzzle `[[0,0],[0,2]]` (3 empty cells)
solves with 4 pushes and 1 pop, and `4 = 1 + 3`. -/
theorem C4_witness :
    ∃ r : SResult, solveLoop 20 (initState [[0, 0], [0, 2]] 2) = some r ∧
      r.pushCounter = r.popCounter + zerosCount [[0, 0], [0, 2]] 2 := by
  refine ⟨⟨true, [⟨[[2, 1], [1, 2]], 2, 1, 0, [1, 1]⟩, ⟨[[2, 1], [0, 2]], 2, 0, 1, [1, 1]⟩,
    ⟨[[2, 0], [0, 2]], 2, 0, 0, [1, 1]⟩, ⟨[[0, 0], [0, 2]], 2, 0, 0, [0, 1]⟩], 4, 1⟩,
    by rfl, ?_⟩
  exact @C4_theorem 2 [[0, 0], [0, 2]] (by decide) 20 _ (by rfl) (by rfl)

/-- Claim C5: the solver is a deterministic function — identical inputs
give identical outputs — and whenever the candidate loop commits a
value it commits the least value in `1..N` that is still flagged
untried and passes the duplicate check, i.e. candidates are tried in
ascending numeric order. -/
theorem C5_theorem :
    (∀ (st1 st2 : SState) (fuel : Nat), st1 = st2 →
      solveLoop fuel st1 = solveLoop fuel st2) ∧
    (∀ (nd : Node) (row col : Nat) (placed : Node), tryPlace nd row col = some placed →
      ∃ v, 1 ≤ v ∧ v ≤ nd.size ∧ placed = updateNode nd row col (v : Int) ∧
        nd.moves.getD (v - 1) 0 = 1 ∧ checkDuplicates nd (v : Int) row col = false ∧
        ∀ w, 1 ≤ w → w < v →
          ¬(nd.moves.getD (w - 1) 0 = 1 ∧ checkDuplicates nd (w : Int) row col = false)) := by
  constructor
  · intro st1 st2 fuel h
    rw [h]
  · intro nd row col placed h
    obtain ⟨v, h1, h2, h3, h4, h5, h6⟩ := tryPlace_eq_some h
    exact ⟨v, h1, h2, h5, h3, h4, h6⟩

/-- Claim C5, witness: two identical runs coincide, and on the empty
2×2 grid the first committed value at `(0,0)` is the least candidate,
namely 1. -/
theorem C5_witness :
    (solveLoop 9 (initState [[0, 0], [0, 0]] 2) =
      solveLoop 9 (initState [[0, 0], [0, 0]] 2)) ∧
    (∃ v, 1 ≤ v ∧ v ≤ (readLatinNode [[0, 0], [0, 0]] 2).size ∧
      updateNode (readLatinNode [[0, 0], [0, 0]] 2) 0 0 (v : Int) =
        updateNode (readLatinNode [[0, 0], [0, 0]] 2) 0 0 (1 : Int)) := by
  constructor
  · exact C5_theorem.1 _ _ 9 rfl
  · obtain ⟨v, h1, h2, h3, _⟩ := C5_theorem.2 (readLatinNode [[0, 0], [0, 0]] 2) 0 0
      (updateNode (readLatinNode [[0, 0], [0, 0]] 2) 0 0 (1 : Int)) (by rfl)
    exact ⟨v, h1, h2, h3.symm⟩

/-- Claim C6: `findNextEmptyCell` returns exactly the first cell
holding 0 in the row-major scan order that starts at the Snapshot's
`(lastRow, lastCol)` and wraps the column index to 0 on each subsequent
row (with the out parameters set to its coordinates and exit code
`EXIT_SUCCESS = 0`), and reports `row = col = -1` with exit code
`EXIT_FAILURE = 1` when that scan finds no zero cell. -/
theorem C6_theorem (nd : Node) :
    findNextEmptyCell nd =
      match (specScanOrder nd.size nd.row nd.col).find?
          (fun p => getCell nd.square p.1 p.2 == 0) with
      | some p => ((p.1 : Int), (p.2 : Int), 0)
      | none => (-1, -1, 1) := by
  unfold findNextEmptyCell
  rw [findOpt_eq_spec]
  cases h : (specScanOrder nd.size nd.row nd.col).find?
      (fun p => getCell nd.square p.1 p.2 == 0) with
  | none => rfl
  | some p =>
    obtain ⟨i, j⟩ := p
    rfl

/-- Claim C6, witness: a concrete evaluation of the theorem — on a
2×2 grid with the cursor at the origin and a single zero at `(1,0)`,
the scan reports that cell with `EXIT_SUCCESS`. -/
theorem C6_witness :
    findNextEmptyCell (readLatinNode [[1, 2], [0, 1]] 2) = ((1 : Int), (0 : Int), 0) := by
  rw [C6_theorem]
  rfl

/-- Claim C7: an input with zero empty cells (here additionally assumed
valid, as the claim states) is reported SOLVED on the very first
evaluation of the loop condition: no value is placed, the stack still
holds only the initial frame, and both counters are 0. -/
theorem C7_theorem {N : Nat} {g0 : List (List Int)} (hg : WFGrid g0 N)
    (hfull : ∀ i < N, ∀ j < N, getCell g0 i j ≠ 0) (hvalid : NoDupCells g0 N)
    (fuel : Nat) :
    solveLoop (fuel + 1) (initState g0 N) =
      some ⟨true, [readLatinNode g0 N], 0, 0⟩ :=
  solveLoop_immediate hfull fuel

/-- Claim C7, witness: the already-valid full grid `[[1,2],[2,1]]` is
reported SOLVED immediately with zero pushes and pops. -/
theorem C7_witness :
    solveLoop 1 (initState [[1, 2], [2, 1]] 2) =
      some ⟨true, [readLatinNode [[1, 2], [2, 1]] 2], 0, 0⟩ :=
  @C7_theorem 2 [[1, 2], [2, 1]] (by decide) (by decide) (by decide) 0

/-- Claim C8: `pop` on an empty stack fails (`EXIT_FAILURE`, the `none`
first component — the EmptyStackError of the spec) and leaves the stack
unchanged; on a non-empty stack it removes the top frame, decrements
the depth by one, hands the caller a copy of the removed Snapshot that
equals it field by field (grid matrix and moves mask reproduced
element-wise), and leaves the new top — the head of the remaining
frames — untouched. -/
theorem C8_theorem :
    (∀ s : List Node, s = [] → pop s = (none, s)) ∧
    (∀ (stack : List Node) (temp : Node) (rest : List Node), stack = temp :: rest →
      WFGrid temp.square temp.size → temp.moves.length = temp.size →
      pop stack = (some temp, rest) ∧ rest.length + 1 = stack.length ∧
      rest.head? = stack.tail.head?) := by
  constructor
  · rintro s rfl
    rfl
  · rintro stack temp rest rfl hW hm
    refine ⟨?_, by simp, rfl⟩
    show (some (popCopy temp), rest) = (some temp, rest)
    rw [popCopy_eq hW hm]

/-- Claim C8, witness: popping the empty stack fails and popping a
two-frame stack returns the top (reproduced exactly) and the one-frame
remainder. -/
theorem C8_witness :
    pop [] = ((none : Option Node), ([] : List Node)) ∧
    pop [readLatinNode [[1]] 1, readLatinNode [[0]] 1] =
      (some (readLatinNode [[1]] 1), [readLatinNode [[0]] 1]) := by
  constructor
  · exact C8_theorem.1 [] rfl
  · exact (C8_theorem.2 _ _ _ rfl (by decide) (by decide)).1

/-- Claim C9: any input grid with no zero cell — whether or not its
pre-filled values respect row/column uniqueness — makes
`findNextEmptyCell` fail at once, so the driver returns `true` (SOLVED)
without ever calling `checkDuplicates`: pre-filled cells are never
validated. -/
theorem C9_theorem {N : Nat} {g0 : List (List Int)} (hg : WFGrid g0 N)
    (hfull : ∀ i < N, ∀ j < N, getCell g0 i j ≠ 0) (fuel : Nat) :
    solveLoop (fuel + 1) (initState g0 N) =
      some ⟨true, [readLatinNode g0 N], 0, 0⟩ :=
  solveLoop_immediate hfull fuel

/-- Claim C9, witness: the invalid full grid `[[1,1],[1,1]]` (value 1
four times) is nevertheless reported SOLVED. -/
theorem C9_witness :
    solveLoop 1 (initState [[1, 1], [1, 1]] 2) =
      some ⟨true, [readLatinNode [[1, 1], [1, 1]] 2], 0, 0⟩ :=
  @C9_theorem 2 [[1, 1], [1, 1]] (by decide) (by decide) 0

/-- Claim C10: starting from the state `main` builds, the run of the
driver loop coincides with the run of the bounds-checked variant — on
every backtrack step that leaves the stack non-empty, the popped
frame's `(row, col)` cell holds a value `v` with
`1 ≤ v ≤ length of the new top's moves array`, so the write
`stack->top->moves[v-1] = 0` is in bounds.  Moreover in any reachable
chain the cell at a pushed frame's cursor is exactly the value
`1 ≤ v ≤ N` most recently placed there by `updateNode`. -/
theorem C10_theorem {N : Nat} {g0 : List (List Int)} (hg : WFGrid g0 N) (fuel : Nat) :
    solveLoopChecked fuel (initState g0 N) = solveLoop fuel (initState g0 N) ∧
    (∀ (a b : Node) (rest : List Node), StackChain N g0 (a :: b :: rest) →
      ∃ v : Nat, 1 ≤ v ∧ v ≤ N ∧ getCell a.square a.row a.col = (v : Int)) := by
  constructor
  · exact solveLoopChecked_eq hg fuel _ chain_init
  · intro a b rest hch
    obtain ⟨hstep, hch2⟩ := hch
    obtain ⟨r, c, v, hrN, hcN, hv1, hv2, _, _, _, hsq, hrow, hcol, _, _⟩ := hstep
    have hWb : WFGrid b.square N := chain_wf hg hch2 b (List.mem_cons_self _ _)
    refine ⟨v, hv1, hv2, ?_⟩
    rw [hsq, hrow, hcol]
    exact getCell_setCell_self (by rw [hWb.1]; omega) (by rw [hWb.2 r hrN]; omega) _

/-- Claim C10, witness: on the backtracking run for `[[0,0],[0,2]]`
(one pop occurs) the checked and unchecked loops agree. -/
theorem C10_witness :
    solveLoopChecked 20 (initState [[0, 0], [0, 2]] 2) =
      solveLoop 20 (initState [[0, 0], [0, 2]] 2) :=
  (@C10_theorem 2 [[0, 0], [0, 2]] (by decide) 20).1

end LatinSolver
